import Mathlib

/-
  Verification development for the sl-dashboard repository.

  The frontend components (CustomerPlanner.jsx, ForecastDashboard.jsx and the
  BuyerForecast variants) contain a small algorithmic core: nearest-horizon
  resolution, percent change, series merging, chart enrichment, a calendar
  month distance, a request-sequence discipline for stale responses, and the
  QuickHorizons fetch loop.  The definitions below are shallow embeddings of
  those JavaScript functions.  JavaScript numbers are modelled by the
  inductive type JVal: a finite rational, NaN, one of the two infinities, or
  null/undefined collapsed into a single constructor, because the code paths
  embedded here distinguish null from undefined in no observable way (both
  fail Number.isFinite and both trigger the nullish-coalescing operator).
-/

namespace SLD

/-- Model of a JavaScript runtime value as it flows through the dashboard
code: a finite number (as a rational), NaN, an infinity, or null/undefined. -/
inductive JVal where
  | num (q : ℚ)
  | nan
  | inf
  | ninf
  | nil
deriving DecidableEq

/-- Number.isFinite. -/
def JVal.isFinite : JVal → Bool
  | .num _ => true
  | _ => false

/-- The rational carried by a finite value, if any. -/
def JVal.toQ : JVal → Option ℚ
  | .num q => some q
  | _ => none

/-- JavaScript nullish coalescing a ?? b: b when a is null/undefined. -/
def nullish (a b : JVal) : JVal :=
  if a = .nil then b else a

/-- Math.abs on integers. -/
def mathAbs (x : Int) : Int := if x < 0 then -x else x

/-- Math.max on integers. -/
def mathMax (x y : Int) : Int := if x < y then y else x

/-- The inline nearest-horizon reduce of onSearch (BuyerForecast):
candidates.reduce((best, h) => Math.abs(h - m) < Math.abs(best - m) ? h :
best, candidates[0]).  On an empty candidate list, candidates[0] is undefined
and Array.reduce with an initial value returns that value unchanged, which is
modelled as none; no error path exists. -/
def resolveNearestHorizon : List Int → Int → Option Int
  | [], _ => none
  | c0 :: rest, m =>
      some ((c0 :: rest).foldl
        (fun best h => if mathAbs (h - m) < mathAbs (best - m) then h else best) c0)

/-- pctChange from CustomerPlanner.jsx:
Number.isFinite(future) && Number.isFinite(base) && base !== 0
evaluates to ((future - base) / base) * 100, and to null otherwise. -/
def pctChange (future base : JVal) : JVal :=
  match future, base with
  | .num f, .num b => if b ≠ 0 then .num ((f - b) / b * 100) else .nil
  | _, _ => .nil

/-- A JavaScript Date reduced to the fields monthsBetween reads: getFullYear,
getMonth (ranging over 0 to 11) and the day of the month. -/
structure JSDate where
  year : Int
  month : Int
  day : Int
deriving DecidableEq

/-- monthsBetween(d1, d2) = Math.max(0, (y2 - y1) * 12 + (m2 - m1)). -/
def monthsBetween (d1 d2 : JSDate) : Int :=
  mathMax 0 ((d2.year - d1.year) * 12 + (d2.month - d1.month))

/-- Calendar order on dates: year, then month, then day. -/
def dateLE (a b : JSDate) : Prop :=
  a.year < b.year ∨ (a.year = b.year ∧ a.month < b.month) ∨
    (a.year = b.year ∧ a.month = b.month ∧ a.day ≤ b.day)

instance (a b : JSDate) : Decidable (dateLE a b) := by
  unfold dateLE; infer_instance

set_option maxHeartbeats 1600000 in
/-- Closed form of the reduce over the fixed horizon list [1, 3, 6]. -/
theorem resolve136 (m : Int) :
    resolveNearestHorizon [1, 3, 6] m =
      some (if m ≤ 2 then 1 else if m ≤ 4 then 3 else 6) := by
  have e1 : resolveNearestHorizon [1, 3, 6] m =
      some (List.foldl
        (fun best h => if mathAbs (h - m) < mathAbs (best - m) then h else best)
        1 [1, 3, 6]) := rfl
  rw [e1]
  simp only [List.foldl_cons, List.foldl_nil]
  refine congrArg some ?_
  simp only [mathAbs]
  split_ifs <;> omega

set_option maxHeartbeats 1600000 in
/-- C1: over the supported horizons [1, 3, 6] the inline reduce of onSearch
returns the horizon minimizing the absolute distance to the month count m,
with ties broken toward the earlier (which is also the smaller) horizon; in
particular for m = 2 it returns 1. -/
theorem resolveNearestHorizon_nearest (m : Int) (hm : 0 ≤ m) :
    ∃ r, resolveNearestHorizon [1, 3, 6] m = some r ∧
      r ∈ ([1, 3, 6] : List Int) ∧
      (∀ h ∈ ([1, 3, 6] : List Int), mathAbs (r - m) ≤ mathAbs (h - m)) ∧
      (∀ h ∈ ([1, 3, 6] : List Int), mathAbs (h - m) = mathAbs (r - m) → r ≤ h) ∧
      (m = 2 → r = 1) := by
  refine ⟨if m ≤ 2 then 1 else if m ≤ 4 then 3 else 6, resolve136 m, ?_, ?_, ?_, ?_⟩
  · split_ifs <;> decide
  · intro h hh
    simp only [List.mem_cons, List.mem_singleton, List.not_mem_nil, or_false] at hh
    rcases hh with rfl | rfl | rfl <;> simp only [mathAbs] <;> split_ifs <;> omega
  · intro h hh
    simp only [List.mem_cons, List.mem_singleton, List.not_mem_nil, or_false] at hh
    rcases hh with rfl | rfl | rfl <;> simp only [mathAbs] <;> split_ifs <;> omega
  · intro h2
    split_ifs <;> omega

/-- Witness for C1 at the month distance 2. -/
theorem resolveNearestHorizon_nearest_witness :
    (0 : Int) ≤ 2 ∧
      ∃ r, resolveNearestHorizon [1, 3, 6] 2 = some r ∧
        r ∈ ([1, 3, 6] : List Int) ∧
        (∀ h ∈ ([1, 3, 6] : List Int), mathAbs (r - 2) ≤ mathAbs (h - 2)) ∧
        (∀ h ∈ ([1, 3, 6] : List Int), mathAbs (h - 2) = mathAbs (r - 2) → r ≤ h) ∧
        ((2 : Int) = 2 → r = 1) :=
  ⟨by decide, resolveNearestHorizon_nearest 2 (by decide)⟩

/-- C2: pctChange returns (future - base) / base * 100 exactly when both
arguments are finite and base is nonzero, and null in every other case; in
particular it is null for base 0 and for NaN inputs, and
pctChange 110 100 = 10. -/
theorem pctChange_spec :
    (∀ f b : ℚ, b ≠ 0 → pctChange (.num f) (.num b) = .num ((f - b) / b * 100)) ∧
    (∀ x y : JVal, ¬(x.isFinite = true ∧ y.isFinite = true ∧ y ≠ .num 0) →
      pctChange x y = .nil) ∧
    (∀ x : JVal, pctChange x (.num 0) = .nil) ∧
    pctChange .nan (.num 5) = .nil ∧
    pctChange (.num 110) (.num 100) = .num 10 := by
  refine ⟨?_, ?_, ?_, rfl, by norm_num [pctChange]⟩
  · intro f b hb
    simp [pctChange, hb]
  · intro x y hxy
    cases x <;> cases y <;> simp_all [pctChange, JVal.isFinite]
  · intro x
    cases x <;> simp [pctChange]

/-- Witness for C2: a finite evaluation and a non-finite one. -/
theorem pctChange_spec_witness :
    pctChange (.num 50) (.num 100) = .num (-50) ∧ pctChange .inf (.num 5) = .nil := by
  constructor
  · have h := pctChange_spec.1 50 100 (by norm_num)
    rw [h]
    norm_num
  · exact pctChange_spec.2.1 .inf (.num 5) (by decide)

/-- C8: a target date at or before the last known date yields month count 0,
and the resolver then returns the smallest supported horizon, 1. -/
theorem monthsBetween_clampZero (lastKnown target : JSDate)
    (hm1 : 0 ≤ lastKnown.month) (hm2 : lastKnown.month ≤ 11)
    (hm3 : 0 ≤ target.month) (hm4 : target.month ≤ 11)
    (hle : dateLE target lastKnown) :
    monthsBetween lastKnown target = 0 ∧
      resolveNearestHorizon [1, 3, 6] (monthsBetween lastKnown target) = some 1 := by
  have h0 : monthsBetween lastKnown target = 0 := by
    unfold monthsBetween mathMax
    rcases hle with h | ⟨h1, h2⟩ | ⟨h1, h2, h3⟩ <;> split_ifs <;> omega
  exact ⟨h0, by rw [h0]; decide⟩

/-- Witness for C8: January 2024 is at or before February 2024. -/
theorem monthsBetween_clampZero_witness :
    monthsBetween ⟨2024, 2, 15⟩ ⟨2024, 1, 10⟩ = 0 ∧
      resolveNearestHorizon [1, 3, 6] (monthsBetween ⟨2024, 2, 15⟩ ⟨2024, 1, 10⟩) =
        some 1 :=
  monthsBetween_clampZero ⟨2024, 2, 15⟩ ⟨2024, 1, 10⟩ (by decide) (by decide)
    (by decide) (by decide) (by decide)

/-- The reduce always lands on its seed or on a list element. -/
theorem nearestFoldl_mem (m : Int) :
    ∀ (l : List Int) (b : Int),
      l.foldl (fun best h => if mathAbs (h - m) < mathAbs (best - m) then h else best) b
          = b ∨
        l.foldl (fun best h => if mathAbs (h - m) < mathAbs (best - m) then h else best) b
          ∈ l := by
  intro l
  induction l with
  | nil => intro b; left; rfl
  | cons x xs ih =>
      intro b
      simp only [List.foldl_cons]
      rcases ih (if mathAbs (x - m) < mathAbs (b - m) then x else b) with h | h
      · rw [h]
        split_ifs
        · right; exact List.mem_cons_self x xs
        · left; rfl
      · right; exact List.mem_cons_of_mem x h

/-- C9 (amended): on every non-empty candidate list the reduce returns a
member of the list; on the empty list it returns undefined (none) instead of
raising a ConfigurationError, since no such error exists in the code. -/
theorem resolveNearestHorizon_mem :
    (∀ (candidates : List Int) (m : Int), candidates ≠ [] →
      ∃ r, resolveNearestHorizon candidates m = some r ∧ r ∈ candidates) ∧
    (∀ m : Int, resolveNearestHorizon [] m = none) := by
  constructor
  · intro candidates m hne
    match candidates, hne with
    | c0 :: rest, _ =>
        refine ⟨_, rfl, ?_⟩
        rcases nearestFoldl_mem m (c0 :: rest) c0 with h | h
        · rw [h]; exact List.mem_cons_self c0 rest
        · exact h
  · intro m; rfl

/-- Witness for C9 on the non-empty list [1, 3, 6] at distance 5. -/
theorem resolveNearestHorizon_mem_witness :
    ([1, 3, 6] : List Int) ≠ [] ∧
      ∃ r, resolveNearestHorizon [1, 3, 6] 5 = some r ∧ r ∈ ([1, 3, 6] : List Int) :=
  ⟨by decide, resolveNearestHorizon_mem.1 [1, 3, 6] 5 (by decide)⟩

/-- C9 counterexample: on the empty horizon set the inline reduce evaluates to
undefined (Array.reduce returns its seed candidates[0], which is undefined for
an empty array) rather than failing; the identifier ConfigurationError occurs
nowhere in the source. -/
theorem resolveNearestHorizon_empty : resolveNearestHorizon [] 5 = none := rfl

/-- A merged chart row.  Observed rows populate actual, forecast rows
populate forecast, lo and hi; ma3 and mom are written by the enrichment
step.  Object fields absent from the JavaScript row are JVal.nil. -/
structure Row where
  date : Nat
  actual : JVal := .nil
  forecast : JVal := .nil
  lo : JVal := .nil
  hi : JVal := .nil
  ma3 : JVal := .nil
  mom : JVal := .nil
deriving DecidableEq

/-- A fetched history point (date, y). -/
structure HistPoint where
  date : Nat
  y : JVal
deriving DecidableEq

/-- A fetched forecast point (date, yhat, lo, hi). -/
structure ForecastPoint where
  date : Nat
  yhat : JVal
  lo : JVal
  hi : JVal
deriving DecidableEq

/-- chartData from CustomerPlanner.jsx: history rows (actual only) followed
by forecast rows (forecast, lo, hi only), concatenated without re-sorting;
the chartData memo of ForecastDashboard.jsx builds the same concatenation. -/
def chartData (hist : List HistPoint) (f6 : List ForecastPoint) : List Row :=
  (hist.map fun p => { date := p.date, actual := p.y }) ++
    (f6.map fun p => { date := p.date, forecast := p.yhat, lo := p.lo, hi := p.hi })

/-- Array.prototype.slice(a, b): the elements from index a up to b exclusive. -/
def slice (arr : List JVal) (a b : Nat) : List JVal :=
  (arr.drop a).take (b - a)

/-- The body of the movingAverage map: nums.length ? mean : null. -/
def windowMean (nums : List ℚ) : JVal :=
  if nums.isEmpty then .nil else .num (nums.sum / (nums.length : ℚ))

/-- The movingAverage helper of enrichedData: at every index i, the mean of
the finite values among arr.slice(Math.max(0, i - k + 1), i + 1), or null
when that window holds no finite value; the nonpositive case of i - k + 1
and truncated natural subtraction agree on the lower bound. -/
def movingAverage (arr : List JVal) (k : Nat) : List JVal :=
  (List.range arr.length).map fun i =>
    windowMean ((slice arr (i + 1 - k) (i + 1)).filterMap JVal.toQ)

/-- Number.isFinite(d.actual) ? Number(d.actual) : null. -/
def actualOrNull (d : Row) : JVal :=
  if d.actual.isFinite then d.actual else .nil

/-- data.forEach((d, i) => d.ma3 = ma3[i]). -/
def setMA (d : Row) (m : JVal) : Row := { d with ma3 := m }

/-- The month-over-month value of one adjacent pair of rows: with
prev = previous.actual ?? previous.forecast and
curr = current.actual ?? current.forecast, the difference curr - prev when
both sides are finite and null otherwise. -/
def momOf (p c : Row) : JVal :=
  match (nullish p.actual p.forecast).toQ, (nullish c.actual c.forecast).toQ with
  | some a, some b => .num (b - a)
  | _, _ => .nil

/-- data[i].mom = momOf(data[i - 1], data[i]). -/
def setMom (p c : Row) : Row := { c with mom := momOf p c }

/-- The showMA branch of enrichedData: the 3-window moving average of the
actual column, stored in ma3 row by row. -/
def withMA (data : List Row) : List Row :=
  List.zipWith setMA data (movingAverage (data.map actualOrNull) 3)

/-- The changeView branch of enrichedData: for every index from 1 on, the
month-over-month value of the row and its predecessor, stored in mom. -/
def withMom (data : List Row) : List Row :=
  match data with
  | [] => []
  | d0 :: rest => d0 :: List.zipWith setMom (d0 :: rest) rest

/-- enrichedData from CustomerPlanner.jsx (the enriched memo of
ForecastDashboard.jsx is the same computation): copy the chart rows, apply
the moving average when showMA is set, then the month-over-month column
when changeView is set. -/
def enrichedData (chart : List Row) (showMA changeView : Bool) : List Row :=
  let data := if showMA then withMA chart else chart
  if changeView then withMom data else data

/-- The five input fields of a row; enrichment must not touch these. -/
def frame (r : Row) : Nat × JVal × JVal × JVal × JVal :=
  (r.date, r.actual, r.forecast, r.lo, r.hi)

theorem movingAverage_length (arr : List JVal) (k : Nat) :
    (movingAverage arr k).length = arr.length := by
  simp [movingAverage]

theorem withMA_length (data : List Row) : (withMA data).length = data.length := by
  simp [withMA, movingAverage_length]

theorem withMom_length (data : List Row) : (withMom data).length = data.length := by
  cases data with
  | nil => rfl
  | cons d0 rest => simp [withMom]

theorem enrichedData_length (data : List Row) (ma cv : Bool) :
    (enrichedData data ma cv).length = data.length := by
  cases ma <;> cases cv <;>
    simp [enrichedData, withMom_length, withMA_length]

theorem zipWith_proj1 {a b c d : Type} (g : a → b → c) (f : c → d) (f1 : a → d)
    (hg : ∀ x y, f (g x y) = f1 x) :
    ∀ (l1 : List a) (l2 : List b), l1.length ≤ l2.length → ∀ i : Nat,
      ((List.zipWith g l1 l2)[i]?).map f = (l1[i]?).map f1 := by
  intro l1 l2 hlen i
  rw [List.getElem?_zipWith']
  rcases Nat.lt_or_ge i l1.length with hi | hi
  · rw [List.getElem?_eq_getElem hi, List.getElem?_eq_getElem (lt_of_lt_of_le hi hlen)]
    simp [hg]
  · rw [List.getElem?_eq_none hi]
    cases h2 : l2[i]? <;> simp

theorem zipWith_proj2 {a b c d : Type} (g : a → b → c) (f : c → d) (f2 : b → d)
    (hg : ∀ x y, f (g x y) = f2 y) :
    ∀ (l1 : List a) (l2 : List b), l2.length ≤ l1.length → ∀ i : Nat,
      ((List.zipWith g l1 l2)[i]?).map f = (l2[i]?).map f2 := by
  intro l1 l2 hlen i
  rw [List.getElem?_zipWith']
  rcases Nat.lt_or_ge i l2.length with hi | hi
  · rw [List.getElem?_eq_getElem hi, List.getElem?_eq_getElem (lt_of_lt_of_le hi hlen)]
    simp [hg]
  · rw [List.getElem?_eq_none hi]
    cases h2 : l1[i]? <;> simp

theorem withMom_getElem?_proj (f : Row → JVal) (hf : ∀ p c, f (setMom p c) = f c)
    (l : List Row) (i : Nat) :
    ((withMom l)[i]?).map f = (l[i]?).map f := by
  cases l with
  | nil => rfl
  | cons d0 rest =>
      cases i with
      | zero => simp [withMom]
      | succ j =>
          simp only [withMom, List.getElem?_cons_succ]
          exact zipWith_proj2 setMom f f hf (d0 :: rest) rest (by simp) j

theorem withMA_getElem?_proj (f : Row → JVal) (hf : ∀ d m, f (setMA d m) = f d)
    (data : List Row) (i : Nat) :
    ((withMA data)[i]?).map f = (data[i]?).map f := by
  unfold withMA
  exact zipWith_proj1 setMA f f hf data _ (by simp [movingAverage_length]) i

theorem withMA_getElem?_ma3 (data : List Row) (i : Nat) (hi : i < data.length) :
    ((withMA data)[i]?).map Row.ma3 = (movingAverage (data.map actualOrNull) 3)[i]? := by
  unfold withMA
  rw [List.getElem?_zipWith']
  have h2 : i < (movingAverage (data.map actualOrNull) 3).length := by
    simp [movingAverage_length, hi]
  rw [List.getElem?_eq_getElem hi, List.getElem?_eq_getElem h2]
  simp [setMA]

theorem withMom_getElem?_mom (l : List Row) (j : Nat) (p c : Row)
    (hp : l[j]? = some p) (hc : l[j + 1]? = some c) :
    ((withMom l)[j + 1]?).map Row.mom = some (momOf p c) := by
  cases l with
  | nil => simp at hp
  | cons d0 rest =>
      simp only [withMom, List.getElem?_cons_succ]
      rw [List.getElem?_zipWith']
      have hc2 : rest[j]? = some c := by simpa using hc
      rw [hp, hc2]
      simp [setMom]

theorem withMom_getElem?_zero (l : List Row) : (withMom l)[0]? = l[0]? := by
  cases l <;> simp [withMom]

theorem movingAverage_getElem? (arr : List JVal) (k i : Nat) (hi : i < arr.length) :
    (movingAverage arr k)[i]? =
      some (windowMean ((slice arr (i + 1 - k) (i + 1)).filterMap JVal.toQ)) := by
  simp [movingAverage, List.getElem?_range, hi]

theorem toQ_actualOrNull (d : Row) : (actualOrNull d).toQ = d.actual.toQ := by
  unfold actualOrNull
  cases h : d.actual <;> simp [JVal.isFinite, JVal.toQ, h]

/-- C3: the merged series concatenates observed rows and then forecast rows
without re-sorting; when the observed dates are non-decreasing, the forecast
dates are non-decreasing, and every forecast date is at least the last
observed date, the merged series has non-decreasing dates end-to-end. -/
theorem chartData_dates_sorted (hist : List HistPoint) (f6 : List ForecastPoint)
    (h1 : List.Chain' (fun x y => x ≤ y) (hist.map HistPoint.date))
    (h2 : List.Chain' (fun x y => x ≤ y) (f6.map ForecastPoint.date))
    (h3 : ∀ dL ∈ (hist.map HistPoint.date).getLast?, ∀ p ∈ f6, dL ≤ p.date) :
    List.Chain' (fun x y => x ≤ y) ((chartData hist f6).map Row.date) := by
  have e : (chartData hist f6).map Row.date =
      hist.map HistPoint.date ++ f6.map ForecastPoint.date := by
    simp only [chartData, List.map_append, List.map_map]
    rfl
  rw [e, List.chain'_append]
  refine ⟨h1, h2, ?_⟩
  intro x hx y hy
  cases f6 with
  | nil => simp at hy
  | cons p ps =>
      simp only [List.map_cons, List.head?_cons, Option.mem_def, Option.some.injEq] at hy
      subst hy
      exact h3 x hx p (List.mem_cons_self p ps)

def histW : List HistPoint := [⟨0, .num 100⟩, ⟨1, .num 105⟩, ⟨2, .num 98⟩]

def f6W : List ForecastPoint := [⟨3, .num 102, .nil, .nil⟩]

/-- Witness for C3 on the scenario data of the spec. -/
theorem chartData_dates_sorted_witness :
    List.Chain' (fun x y => x ≤ y) ((chartData histW f6W).map Row.date) :=
  chartData_dates_sorted histW f6W (by norm_num [histW, List.chain'_cons])
    (by norm_num [f6W]) (by decide)

theorem map_frame_setMA :
    ∀ (l1 : List Row) (l2 : List JVal), l1.length ≤ l2.length →
      (List.zipWith setMA l1 l2).map frame = l1.map frame := by
  intro l1
  induction l1 with
  | nil => intro l2 _; rfl
  | cons d ds ih =>
      intro l2 hl
      cases l2 with
      | nil => simp at hl
      | cons m ms =>
          have h1 : frame (setMA d m) = frame d := rfl
          simp only [List.zipWith_cons_cons, List.map_cons, h1]
          rw [ih ms (by simpa using hl)]

theorem map_frame_setMom :
    ∀ (l2 l1 : List Row), l2.length ≤ l1.length →
      (List.zipWith setMom l1 l2).map frame = l2.map frame := by
  intro l2
  induction l2 with
  | nil => intro l1 _; simp
  | cons c cs ih =>
      intro l1 hl
      cases l1 with
      | nil => simp at hl
      | cons p ps =>
          have h1 : frame (setMom p c) = frame c := rfl
          simp only [List.zipWith_cons_cons, List.map_cons, h1]
          rw [ih ps (by simpa using hl)]

/-- C10: the enrichment step is frame preserving: for every combination of
the showMA and changeView flags the output has exactly as many rows as the
input and the date, actual, forecast, lo and hi fields of every row are
unchanged; only ma3 and mom can be written. -/
theorem enrichedData_frame (data : List Row) (ma cv : Bool) :
    (enrichedData data ma cv).map frame = data.map frame ∧
      (enrichedData data ma cv).length = data.length := by
  refine ⟨?_, enrichedData_length data ma cv⟩
  have hMA : (withMA data).map frame = data.map frame :=
    map_frame_setMA data (movingAverage (data.map actualOrNull) 3)
      (by simp [movingAverage_length])
  have hMom : ∀ l : List Row, (withMom l).map frame = l.map frame := by
    intro l
    cases l with
    | nil => rfl
    | cons d0 rest =>
        simp only [withMom, List.map_cons]
        rw [map_frame_setMom rest (d0 :: rest) (by simp)]
  cases ma <;> cases cv <;> simp [enrichedData, hMA, hMom]

/-- C6: with the moving average enabled, the ma3 value at every index i of
the enriched series is the mean of the finite actual values among the window
of up to 3 rows ending at i (fewer near the start), non-finite values being
dropped from both the window and the denominator, and null when the window
holds no finite value. -/
theorem enrichedData_ma3 (data : List Row) (cv : Bool) (i : Nat)
    (hi : i < data.length) :
    ((enrichedData data true cv)[i]?).map Row.ma3 =
      some (if (((data.map Row.actual).take (i + 1)).drop (i + 1 - 3)).filterMap JVal.toQ = []
        then JVal.nil
        else JVal.num
          (((((data.map Row.actual).take (i + 1)).drop (i + 1 - 3)).filterMap JVal.toQ).sum /
            (((((data.map Row.actual).take (i + 1)).drop (i + 1 - 3)).filterMap JVal.toQ).length : ℚ))) := by
  have key : ((enrichedData data true cv)[i]?).map Row.ma3 =
      (movingAverage (data.map actualOrNull) 3)[i]? := by
    cases cv with
    | false =>
        show ((withMA data)[i]?).map Row.ma3 = _
        exact withMA_getElem?_ma3 data i hi
    | true =>
        show ((withMom (withMA data))[i]?).map Row.ma3 = _
        rw [withMom_getElem?_proj Row.ma3 (fun p c => rfl) (withMA data) i]
        exact withMA_getElem?_ma3 data i hi
  rw [key, movingAverage_getElem? _ 3 i (by simpa using hi)]
  have e : (slice (data.map actualOrNull) (i + 1 - 3) (i + 1)).filterMap JVal.toQ =
      (((data.map Row.actual).take (i + 1)).drop (i + 1 - 3)).filterMap JVal.toQ := by
    rw [List.drop_take]
    unfold slice
    rw [← List.map_drop, ← List.map_take, ← List.map_drop, ← List.map_take]
    rw [List.filterMap_map, List.filterMap_map]
    congr 1
    funext d
    exact toQ_actualOrNull d
  rw [e]
  simp [windowMean, List.isEmpty_iff]

def rowA : Row := { date := 0, actual := .num 100 }

def rowF : Row := { date := 1, forecast := .num 102 }

def rowNil : Row := { date := 0 }

/-- Witness for C6: a 1-element actual sequence [100] gives ma3 = 100 at
index 0, and an all-null sequence gives ma3 = null at every index. -/
theorem enrichedData_ma3_witness :
    ((enrichedData [rowA] true false)[0]?).map Row.ma3 = some (JVal.num 100) ∧
    ((enrichedData [rowNil, rowNil] true false)[0]?).map Row.ma3 = some JVal.nil ∧
    ((enrichedData [rowNil, rowNil] true false)[1]?).map Row.ma3 = some JVal.nil := by
  refine ⟨?_, ?_, ?_⟩
  · have h := enrichedData_ma3 [rowA] false 0 (by simp)
    rw [h]
    simp [rowA, JVal.toQ]
  · have h := enrichedData_ma3 [rowNil, rowNil] false 0 (by simp)
    rw [h]
    simp [rowNil, JVal.toQ]
  · have h := enrichedData_ma3 [rowNil, rowNil] false 1 (by simp)
    rw [h]
    simp [rowNil, JVal.toQ]

theorem chartData_mom_nil (hist : List HistPoint) (f6 : List ForecastPoint) :
    ∀ r ∈ chartData hist f6, r.mom = JVal.nil := by
  intro r hr
  rcases List.mem_append.1 hr with h | h <;>
    · rcases List.mem_map.1 h with ⟨p, _, rfl⟩
      rfl

/-- C7: with the change view enabled, the mom value at every index after the
first is current.(actual ?? forecast) minus previous.(actual ?? forecast)
computed from the original rows, null when either side is non-finite; the
first row receives no change value (its mom passes through unchanged, and is
null for a freshly merged series). -/
theorem enrichedData_mom (data : List Row) (ma : Bool) :
    (∀ i p c, data[i]? = some p → data[i + 1]? = some c →
      ((enrichedData data ma true)[i + 1]?).map Row.mom =
        some (match (nullish p.actual p.forecast).toQ,
                (nullish c.actual c.forecast).toQ with
              | some a, some b => JVal.num (b - a)
              | _, _ => JVal.nil)) ∧
    (((enrichedData data ma true)[0]?).map Row.mom = (data[0]?).map Row.mom) ∧
    (∀ hist f6 r, data = chartData hist f6 →
      (enrichedData data ma true)[0]? = some r → r.mom = JVal.nil) := by
  have hzero : ((enrichedData data ma true)[0]?).map Row.mom =
      (data[0]?).map Row.mom := by
    cases ma with
    | false =>
        show ((withMom data)[0]?).map Row.mom = _
        rw [withMom_getElem?_zero]
    | true =>
        show ((withMom (withMA data))[0]?).map Row.mom = _
        rw [withMom_getElem?_zero]
        exact withMA_getElem?_proj Row.mom (fun d m => rfl) data 0
  refine ⟨?_, hzero, ?_⟩
  · intro i p c hp hc
    have hi1 : i + 1 < data.length := by
      by_contra hcon
      rw [List.getElem?_eq_none (Nat.le_of_not_lt hcon)] at hc
      exact Option.noConfusion hc
    have hi : i < data.length := Nat.lt_of_succ_lt hi1
    cases ma with
    | false =>
        show ((withMom data)[i + 1]?).map Row.mom = _
        exact withMom_getElem?_mom data i p c hp hc
    | true =>
        show ((withMom (withMA data))[i + 1]?).map Row.mom = _
        have hlp : i < (withMA data).length := by rw [withMA_length]; exact hi
        have hlc : i + 1 < (withMA data).length := by rw [withMA_length]; exact hi1
        obtain ⟨p1, hp1⟩ : ∃ p1, (withMA data)[i]? = some p1 :=
          ⟨_, List.getElem?_eq_getElem hlp⟩
        obtain ⟨c1, hc1⟩ : ∃ c1, (withMA data)[i + 1]? = some c1 :=
          ⟨_, List.getElem?_eq_getElem hlc⟩
        have hpa : p1.actual = p.actual := by
          have h := withMA_getElem?_proj Row.actual (fun d m => rfl) data i
          rw [hp1, hp] at h
          simpa using h
        have hpf : p1.forecast = p.forecast := by
          have h := withMA_getElem?_proj Row.forecast (fun d m => rfl) data i
          rw [hp1, hp] at h
          simpa using h
        have hca : c1.actual = c.actual := by
          have h := withMA_getElem?_proj Row.actual (fun d m => rfl) data (i + 1)
          rw [hc1, hc] at h
          simpa using h
        have hcf : c1.forecast = c.forecast := by
          have h := withMA_getElem?_proj Row.forecast (fun d m => rfl) data (i + 1)
          rw [hc1, hc] at h
          simpa using h
        rw [withMom_getElem?_mom (withMA data) i p1 c1 hp1 hc1]
        unfold momOf
        rw [hpa, hpf, hca, hcf]
  · intro hist f6 r hdata hr
    have h := hzero
    rw [hr] at h
    cases h0 : data[0]? with
    | none => rw [h0] at h; simp at h
    | some r0 =>
        rw [h0] at h
        simp only [Option.map_some', Option.some.injEq] at h
        have hmem : r0 ∈ data := List.getElem?_mem h0
        rw [hdata] at hmem
        rw [h]
        exact chartData_mom_nil hist f6 r0 hmem

/-- Witness for C7: an observed row followed by a forecast row gives a mom
value of 102 - 100 = 2 at index 1. -/
theorem enrichedData_mom_witness :
    ((enrichedData [rowA, rowF] false true)[1]?).map Row.mom =
      some (JVal.num 2) := by
  have h := (enrichedData_mom [rowA, rowF] false).1 0 rowA rowF rfl rfl
  rw [h]
  refine congrArg some ?_
  show JVal.num ((102 : ℚ) - 100) = JVal.num 2
  refine congrArg JVal.num ?_
  norm_num


/-- The selection-scoped fetch state of ForecastDashboard: the latestReq ref
(a monotonically increasing request counter) together with the kpi and
history states that the responses write.  The payloads are abstract. -/
structure DashState where
  latestReq : Nat
  kpi : Option Int
  history : Option (List Int)
deriving DecidableEq

/-- const reqId = ++latestReq.current, run when a selection-change effect
fires: the counter is bumped and its new value is captured as the request id
of the batch issued for that selection. -/
def issueRequest (s : DashState) : DashState × Nat :=
  ({ s with latestReq := s.latestReq + 1 }, s.latestReq + 1)

/-- if (reqId !== latestReq.current) return; setKpi(...): the predict
response of request reqId is applied only when reqId is still the latest
counter, and is silently dropped otherwise. -/
def applyKpi (s : DashState) (reqId : Nat) (k : Int) : DashState :=
  if reqId = s.latestReq then { s with kpi := some k } else s

/-- if (reqId !== latestReq.current) return; setHistory(...): the series
response of request reqId is applied only when reqId is still the latest
counter, and is silently dropped otherwise. -/
def applyHistory (s : DashState) (reqId : Nat) (h : List Int) : DashState :=
  if reqId = s.latestReq then { s with history := some h } else s

/-- C4: last selection wins.  Issue a batch for selection A, then one for
selection B; after B's responses are applied (state s2), a late-arriving
response of A is discarded by the reqId comparison and changes nothing, so
the state established by B's responses is never overwritten, regardless of
network completion order; s2 does carry B's payloads and the two request
ids differ. -/
theorem staleResponse_rejected (s : DashState) (kA kB : Int) (hA hB : List Int)
    (idA idB : Nat) (s2 : DashState)
    (hA1 : idA = (issueRequest s).2)
    (hB1 : idB = (issueRequest (issueRequest s).1).2)
    (hs2 : s2 = applyHistory (applyKpi (issueRequest (issueRequest s).1).1 idB kB) idB hB) :
    applyHistory (applyKpi s2 idA kA) idA hA = s2 ∧
      s2.kpi = some kB ∧ s2.history = some hB ∧ idA ≠ idB := by
  subst hA1 hB1 hs2
  have e2 : applyKpi (issueRequest (issueRequest s).1).1
      (issueRequest (issueRequest s).1).2 kB =
      { latestReq := s.latestReq + 1 + 1, kpi := some kB, history := s.history } := by
    unfold issueRequest applyKpi
    rw [if_pos rfl]
  rw [e2]
  have e3 : applyHistory
      { latestReq := s.latestReq + 1 + 1, kpi := some kB, history := s.history }
      (issueRequest (issueRequest s).1).2 hB =
      { latestReq := s.latestReq + 1 + 1, kpi := some kB, history := some hB } := by
    unfold issueRequest applyHistory
    rw [if_pos rfl]
  rw [e3]
  have hne : (issueRequest s).2 ≠ s.latestReq + 1 + 1 := by
    unfold issueRequest
    omega
  have e4 : applyKpi { latestReq := s.latestReq + 1 + 1, kpi := some kB, history := some hB }
      (issueRequest s).2 kA =
      { latestReq := s.latestReq + 1 + 1, kpi := some kB, history := some hB } := by
    unfold applyKpi
    rw [if_neg hne]
  rw [e4]
  have e5 : applyHistory { latestReq := s.latestReq + 1 + 1, kpi := some kB, history := some hB }
      (issueRequest s).2 hA =
      { latestReq := s.latestReq + 1 + 1, kpi := some kB, history := some hB } := by
    unfold applyHistory
    rw [if_neg hne]
  rw [e5]
  refine ⟨rfl, rfl, rfl, ?_⟩
  simp only [issueRequest]
  omega

/-- Witness for C4 starting from the fresh state with counter 0. -/
theorem staleResponse_rejected_witness :
    applyHistory (applyKpi (⟨2, some 2, some [2]⟩ : DashState) 1 7) 1 [9] =
        (⟨2, some 2, some [2]⟩ : DashState) ∧
      (⟨2, some 2, some [2]⟩ : DashState).kpi = some 2 ∧
      (⟨2, some 2, some [2]⟩ : DashState).history = some [2] ∧ (1 : Nat) ≠ 2 :=
  staleResponse_rejected ⟨0, none, none⟩ 7 2 [9] [2] 1 2 ⟨2, some 2, some [2]⟩
    rfl rfl (by decide)

/-- A fetch outcome as the component sees it: the ok flag and status of the
response, and the fields read out of the parsed JSON body. -/
structure FetchResp where
  ok : Bool
  status : Nat
  target_date : String
  predicted_price : JVal
deriving DecidableEq

/-- One card row pushed by the QuickHorizons loop. -/
structure SummaryRow where
  horizon : Nat
  target_date : String
  predicted_price : JVal
deriving DecidableEq

/-- The horizon loop of QuickHorizons (BuyerForecast, part_002): for each
horizon, fetch /predict; on !pr.ok throw new Error with the HTTP status,
abandoning the rows accumulated so far; otherwise push a row and continue. -/
def fetchLoop (fetchPredict : Nat → FetchResp) : List Nat → Except String (List SummaryRow)
  | [] => .ok []
  | h :: rest =>
      let pr := fetchPredict h
      if pr.ok then
        match fetchLoop fetchPredict rest with
        | .ok out => .ok (⟨h, pr.target_date, pr.predicted_price⟩ :: out)
        | .error e => .error e
      else .error ("HTTP " ++ toString pr.status)

/-- The QuickHorizons effect: fetch /series for the last-known point
(throwing its HTTP status on failure), then run the horizon loop over
[1, 3, 6]; any failure surfaces as the single error state and no rows are
published. -/
def quickHorizons (fetchSeries : FetchResp) (fetchPredict : Nat → FetchResp) :
    Except String (List SummaryRow) :=
  if fetchSeries.ok then fetchLoop fetchPredict [1, 3, 6]
  else .error ("HTTP " ++ toString fetchSeries.status)

/-- C5 (amended): if any individual horizon request fails, the whole
QuickHorizons operation fails with an upstream error carrying the failing
request's HTTP status, and no partial list of per-horizon summaries is
produced. -/
theorem quickHorizons_allOrNothing (fetchSeries : FetchResp)
    (fetchPredict : Nat → FetchResp) (h : Nat) (hmem : h ∈ ([1, 3, 6] : List Nat))
    (hfail : (fetchPredict h).ok = false) :
    (∃ msg, quickHorizons fetchSeries fetchPredict = .error msg) ∧
    (∀ rows, quickHorizons fetchSeries fetchPredict ≠ .ok rows) := by
  have key : ∃ msg, quickHorizons fetchSeries fetchPredict = .error msg := by
    unfold quickHorizons
    by_cases hs : fetchSeries.ok = true
    · simp only [hs, if_true]
      simp only [List.mem_cons, List.mem_singleton, List.not_mem_nil, or_false] at hmem
      by_cases h1 : (fetchPredict 1).ok = true
      · by_cases h3 : (fetchPredict 3).ok = true
        · by_cases h6 : (fetchPredict 6).ok = true
          · exfalso
            rcases hmem with rfl | rfl | rfl <;> simp_all
          · refine ⟨"HTTP " ++ toString (fetchPredict 6).status, ?_⟩
            simp [fetchLoop, h1, h3, h6]
        · refine ⟨"HTTP " ++ toString (fetchPredict 3).status, ?_⟩
          simp [fetchLoop, h1, h3]
      · refine ⟨"HTTP " ++ toString (fetchPredict 1).status, ?_⟩
        simp [fetchLoop, h1]
    · refine ⟨"HTTP " ++ toString fetchSeries.status, ?_⟩
      simp [hs]
  refine ⟨key, ?_⟩
  intro rows hrows
  rcases key with ⟨msg, hmsg⟩
  rw [hrows] at hmsg
  exact Except.noConfusion hmsg

def okResp : FetchResp := ⟨true, 200, "2024-04", .num 100⟩

def failResp : FetchResp := ⟨false, 500, "", .nil⟩

/-- A predict fetcher whose horizon-3 request fails with HTTP 500. -/
def fpFail3 : Nat → FetchResp := fun h => if h = 3 then failResp else okResp

/-- A predict fetcher whose horizon-6 request fails with HTTP 500. -/
def fpFail6 : Nat → FetchResp := fun h => if h = 6 then failResp else okResp

/-- Witness for C5: with a failing horizon-3 request the operation yields a
single error and no row list. -/
theorem quickHorizons_allOrNothing_witness :
    (∃ msg, quickHorizons okResp fpFail3 = .error msg) ∧
    (∀ rows, quickHorizons okResp fpFail3 ≠ .ok rows) :=
  quickHorizons_allOrNothing okResp fpFail3 3 (by decide) (by decide)

/-- C5 counterexample: the error raised by a failing horizon request does
not identify the failing horizon.  A run whose horizon-3 request fails with
HTTP 500 and a run whose horizon-6 request fails with HTTP 500 produce the
identical error value "HTTP 500", so no consumer of the result can tell
which horizon failed, contradicting the claim that the error identifies
it. -/
theorem quickHorizons_error_no_horizon :
    quickHorizons okResp fpFail3 = .error "HTTP 500" ∧
    quickHorizons okResp fpFail6 = .error "HTTP 500" ∧
    quickHorizons okResp fpFail3 = quickHorizons okResp fpFail6 := by
  refine ⟨?_, ?_, ?_⟩ <;> rfl

end SLD
